import Mathlib

/-
Verification of the gallery editor (src/src/app/gallery/page.tsx and
src/src/components/ResizeableDraggableItem.tsx): a shallow embedding of
the pending-item store, the save pipeline, the selection heuristic, the
drag/resize geometry adapter and the component lifecycle, with theorems
about the behaviors the specification describes.

Layout coordinates carried by items and gestures are modelled as
integers (CSS pixel offsets); the aspect-ratio heuristic of onSelect,
which divides pixel dimensions, is computed in the rationals and rounded
exactly as JavaScript Math.round does (round q is the floor of q + 1/2
in Mathlib, which agrees with Math.round on every input, ties rounding
toward positive infinity).
-/

namespace Gallery

/-- A file delivered by the file picker: its name and, when the probe in
readImageDims succeeds, the natural pixel dimensions (width, height);
`none` when the dimensions are unreadable. -/
structure SelFile where
  name : String
  dims : Option (Nat × Nat)
  deriving Repr, DecidableEq

/-- A pending (selected but unsaved) item, mirroring the PendingFile type
of page.tsx. The preview handle created by URL.createObjectURL is
modelled as a natural number allocated from a fresh counter. -/
structure PendingFile where
  name : String
  previewUrl : Nat
  x : ℤ
  y : ℤ
  w : ℤ
  h : ℤ
  caption : Option String
  deriving Repr, DecidableEq

/-- A persisted document as written by addDoc in onSave: resolved URL,
file name, layout and caption (createdAt is assigned by the store and is
not modelled). -/
structure GalleryDoc where
  url : String
  fileName : String
  x : ℤ
  y : ℤ
  w : ℤ
  h : ℤ
  caption : Option String
  deriving Repr, DecidableEq

/-- The aspect ratio chosen by onSelect:
`dims && dims.w > 0 ? Math.max(0.3, dims.h / dims.w) : 0.66`. -/
def ratioOf (dims : Option (Nat × Nat)) : ℚ :=
  match dims with
  | some (dw, dh) => if 0 < dw then max (3 / 10) ((dh : ℚ) / (dw : ℚ)) else 33 / 50
  | none => 33 / 50

/-- The seeded height of onSelect: `Math.max(160, Math.round(baseW * ratio))`
with baseW = 260. -/
def baseH (dims : Option (Nat × Nat)) : ℤ :=
  max 160 (round ((260 : ℚ) * ratioOf dims))

/-- One entry pushed by the loop body of onSelect: width 260, height from
the aspect heuristic, position offset 16 * n where n counts the pending
items plus the entries already built in this selection event. -/
def seedEntry (handle n : Nat) (f : SelFile) : PendingFile :=
  { name := f.name
    previewUrl := handle
    x := 16 * (n : ℤ)
    y := 16 * (n : ℤ)
    w := 260
    h := baseH f.dims
    caption := none }

/-- The entries built by the onSelect loop: one per file, the handle
counter and the position index each advancing by one per file. -/
def seedEntries (handle n : Nat) : List SelFile → List PendingFile
  | [] => []
  | f :: fs => seedEntry handle n f :: seedEntries (handle + 1) (n + 1) fs

/-- onSelect of page.tsx: an empty selection leaves the list unchanged,
otherwise the built entries are appended after the existing pending
items. -/
def onSelect (handle : Nat) (pending : List PendingFile) (files : List SelFile) :
    List PendingFile :=
  if files.isEmpty then pending
  else pending ++ seedEntries handle pending.length files

/-- The outcome of the external collaborators during one run of onSave:
whether the upload (uploadBytes plus getDownloadURL) of the item at each
loop index succeeds, the durable URL it resolves to, and whether the
addDoc write at each loop index succeeds. -/
structure SaveEnv where
  uploadOk : Nat → Bool
  urlOf : Nat → String
  writeOk : Nat → Bool

/-- The document addDoc writes for the item at loop index i: the resolved
URL combined with the file name, the current layout of the item and its
caption (caption ?? null). -/
def docOf (env : SaveEnv) (i : Nat) (p : PendingFile) : GalleryDoc :=
  { url := env.urlOf i
    fileName := p.name
    x := p.x
    y := p.y
    w := p.w
    h := p.h
    caption := p.caption }

/-- What one run of the for-loop of onSave performs: the documents written
in order, the loop indices whose upload was attempted, the loop indices
whose addDoc write was attempted, and whether the loop ran to completion
(false when an upload or a write threw). -/
structure LoopResult where
  docs : List GalleryDoc
  uploads : List Nat
  writes : List Nat
  ok : Bool
  deriving Repr

/-- The for-loop of onSave, strictly sequential: for the item at index i,
attempt the upload; if it throws the loop aborts; otherwise attempt the
addDoc write; if it throws the loop aborts; otherwise continue with the
rest. -/
def saveLoop (env : SaveEnv) : Nat → List PendingFile → LoopResult
  | _, [] => ⟨[], [], [], true⟩
  | i, p :: rest =>
    if env.uploadOk i then
      if env.writeOk i then
        let r := saveLoop env (i + 1) rest
        ⟨docOf env i p :: r.docs, i :: r.uploads, i :: r.writes, r.ok⟩
      else ⟨[], [i], [i], false⟩
    else ⟨[], [i], [], false⟩

/-- The documents the loop writes for a list of items starting at loop
index i, assuming every step succeeds. -/
def docsFrom (env : SaveEnv) : Nat → List PendingFile → List GalleryDoc
  | _, [] => []
  | i, p :: rest => docOf env i p :: docsFrom env (i + 1) rest

/-- The state of the GalleryPage component together with the remote store:
the pending list, the persisted documents, the sequence of
URL.revokeObjectURL calls made so far (by revoked handle), the fresh
handle counter, the isSaving flag, and the pending array captured by the
cleanup effect at mount time (the effect has an empty dependency list, so
its closure keeps the array of the first render). -/
structure CState where
  pending : List PendingFile
  docs : List GalleryDoc
  revoked : List Nat
  nextHandle : Nat
  isSaving : Bool
  mountPending : List PendingFile
  deriving Repr, DecidableEq

/-- onSave of page.tsx: an empty pending list returns before touching
isSaving; otherwise the loop runs with isSaving set, and only when every
upload and write succeeded are the preview handles revoked (in list
order) and the pending list cleared; the finally block resets isSaving in
both outcomes. On failure neither the pending list nor the revocation
log changes. -/
def onSave (env : SaveEnv) (st : CState) : CState :=
  if st.pending.isEmpty then st
  else
    let r := saveLoop env 0 st.pending
    if r.ok then
      { st with
        pending := []
        docs := st.docs ++ r.docs
        revoked := st.revoked ++ st.pending.map (fun p => p.previewUrl)
        isSaving := false }
    else
      { st with docs := st.docs ++ r.docs, isSaving := false }

/-- The states observable at the suspension points inside the onSave loop
(after setIsSaving(true), before each item is processed): the documents
written so far are visible and isSaving is set. The list stops at the
first failing item. -/
def saveMidStates (env : SaveEnv) (st : CState) : Nat → List GalleryDoc → List PendingFile → List CState
  | _, _, [] => []
  | i, acc, p :: rest =>
    let s := { st with isSaving := true, docs := st.docs ++ acc }
    if env.uploadOk i && env.writeOk i then
      s :: saveMidStates env st (i + 1) (acc ++ [docOf env i p]) rest
    else [s]

/-- canSave of page.tsx: `pending.length > 0 && !isSaving`. -/
def canSaveB (st : CState) : Bool :=
  decide (0 < st.pending.length) && !st.isSaving

/-- The disabled attribute of the save button: `disabled={!canSave}`. -/
def buttonDisabled (st : CState) : Bool :=
  !canSaveB st

/-- The save button label:
`isSaving ? "Saving…" : Save(pending.length ? (pending.length) : "")`. -/
def buttonLabel (st : CState) : String :=
  if st.isSaving then "Saving…"
  else "Save" ++ (if 0 < st.pending.length then " (" ++ toString st.pending.length ++ ")" else "")

/-- A click on the save button: the browser delivers the click only while
the button is enabled, so a click during an outstanding save (or with an
empty pending list) does nothing. -/
def clickSave (env : SaveEnv) (st : CState) : CState :=
  if canSaveB st then onSave env st else st

/-- removeOne of page.tsx: splice out the entry at idx and revoke its
preview handle; an out-of-range index removes nothing and revokes
nothing. -/
def removeOne (idx : Nat) (st : CState) : CState :=
  match st.pending.get? idx with
  | some p =>
    { st with
      pending := st.pending.eraseIdx idx
      revoked := st.revoked ++ [p.previewUrl] }
  | none => st

/-- The user-visible events of the component. -/
inductive Ev where
  | select (files : List SelFile)
  | remove (idx : Nat)
  | save (env : SaveEnv)

/-- One event step of the component: selection appends seeded entries and
consumes one fresh preview handle per file; removal and save behave as in
the source. -/
def step (st : CState) : Ev → CState
  | .select files =>
    if files.isEmpty then st
    else
      { st with
        pending := onSelect st.nextHandle st.pending files
        nextHandle := st.nextHandle + files.length }
  | .remove idx => removeOne idx st
  | .save env => onSave env st

/-- The cleanup of the unmount effect of page.tsx: it revokes the preview
handles of the pending array its closure captured. Because the effect
has an empty dependency list, that closure holds the pending array of
the first render (recorded in mountPending), not the current one. -/
def teardown (st : CState) : CState :=
  { st with revoked := st.revoked ++ st.mountPending.map (fun p => p.previewUrl) }

/-- The freshly mounted component: nothing pending, nothing persisted
locally known, no revocations; the cleanup effect captures the (empty)
pending array of this first render. -/
def mount : CState :=
  { pending := []
    docs := []
    revoked := []
    nextHandle := 0
    isSaving := false
    mountPending := [] }

/-- Run a sequence of events from the mounted component. -/
def run (evs : List Ev) : CState :=
  evs.foldl step mount

/-- A finalized layout record reported by the geometry adapter at gesture
end. -/
structure Rect where
  x : ℤ
  y : ℤ
  w : ℤ
  h : ℤ
  deriving Repr, DecidableEq

/-- Clamp v into the interval from lo to hi. -/
def clampI (lo hi v : ℤ) : ℤ :=
  max lo (min hi v)

/-- Modelled from the spec (section 4.1 contract of the third-party
geometry library): the grid snapper at step 8 sends a coordinate to the
nearest multiple of 8, ties rounding up as Math.round does; for an
integer v this is 8 * ((v + 4) fdiv 8). -/
def snap8 (v : ℤ) : ℤ :=
  8 * ((v + 4).fdiv 8)

/-- The element stays within the bounds of its parent of size pw times
ph. -/
def inBounds (pw ph : ℤ) (r : Rect) : Prop :=
  0 ≤ r.x ∧ 0 ≤ r.y ∧ r.x + r.w ≤ pw ∧ r.y + r.h ≤ ph

instance (pw ph : ℤ) (r : Rect) : Decidable (inBounds pw ph r) := by
  unfold inBounds
  infer_instance

/-- One move event of the drag handler of the ResizableDraggableItem in
page.tsx: the listener accumulates the pointer delta into the stored
position; the configured modifier stack (snap at step 8 when enabled,
restrictEdges to the parent always — modelled from the spec section 4.1
contract) adjusts the resulting position; the size of the element is not
touched by a drag. -/
def pageDragMove (snap : Bool) (pw ph w h : ℤ) (pos : ℤ × ℤ) (d : ℤ × ℤ) : ℤ × ℤ :=
  let cand := (pos.1 + d.1, pos.2 + d.2)
  let sn := if snap then (snap8 cand.1, snap8 cand.2) else cand
  (clampI 0 (pw - w) sn.1, clampI 0 (ph - h) sn.2)

/-- The stored position after a drag gesture made of the given move
deltas. -/
def pageDragRun (snap : Bool) (pw ph w h : ℤ) (p0 : ℤ × ℤ) (ds : List (ℤ × ℤ)) : ℤ × ℤ :=
  ds.foldl (pageDragMove snap pw ph w h) p0

/-- The layout the end listener of the page.tsx drag handler reports:
the stored dataset position together with the (unchanged) client size. -/
def pageDragEnd (snap : Bool) (pw ph w h : ℤ) (p0 : ℤ × ℤ) (ds : List (ℤ × ℤ)) : Rect :=
  let p := pageDragRun snap pw ph w h p0 ds
  ⟨p.1, p.2, w, h⟩

/-- One move event of the drag handler of the standalone
ResizeableDraggableItem component: its draggable configuration attaches
no modifiers at all, so the delta is accumulated unrestricted. -/
def compDragMove (pos : ℤ × ℤ) (d : ℤ × ℤ) : ℤ × ℤ :=
  (pos.1 + d.1, pos.2 + d.2)

/-- The layout the end listener of the standalone component drag handler
reports after the given move deltas: the unrestricted accumulated
position with the unchanged client size. -/
def compDragEnd (w h : ℤ) (p0 : ℤ × ℤ) (ds : List (ℤ × ℤ)) : Rect :=
  let p := ds.foldl compDragMove p0
  ⟨p.1, p.2, w, h⟩

/-- The edges of a candidate rect produced by a resize gesture. -/
structure Edges where
  l : ℤ
  t : ℤ
  r : ℤ
  b : ℤ
  deriving Repr, DecidableEq

/-- Modelled from the spec (section 4.1 contract): the modifier stack of
the resize handler — snap at step 8 when enabled, restrictEdges to the
parent and restrictSize to a minimum of 80 by 80 always — resolves a
candidate rect to one satisfying the restrictions, moving each edge the
least amount needed. -/
def resolveResize (snap : Bool) (pw ph : ℤ) (e : Edges) : Edges :=
  let c : Edges := if snap then ⟨snap8 e.l, snap8 e.t, snap8 e.r, snap8 e.b⟩ else e
  let l := clampI 0 (pw - 80) c.l
  let t := clampI 0 (ph - 80) c.t
  ⟨l, t, clampI (l + 80) pw c.r, clampI (t + 80) ph c.b⟩

/-- The layout the end listener of the page.tsx resize handler reports:
the move listener wrote width = Math.max(80, rect.width) and height =
Math.max(80, rect.height) into the element style and accumulated the
left/top edge displacement into the dataset position, so the end
listener reads back exactly the resolved rect (with the explicit
80-minimum of the listener applied). -/
def pageResizeEnd (snap : Bool) (pw ph : ℤ) (e : Edges) : Rect :=
  let c := resolveResize snap pw ph e
  ⟨c.l, c.t, max 80 (c.r - c.l), max 80 (c.b - c.t)⟩

/-- A JavaScript number as far as the drag listeners inspect one: a
finite value (modelled as an integer pixel offset), NaN, or a signed
infinity. -/
inductive JNum where
  | fin : ℤ → JNum
  | nan : JNum
  | inf : JNum
  | ninf : JNum
  deriving Repr, DecidableEq

/-- JavaScript addition on such numbers: NaN is absorbing, opposite
infinities give NaN, an infinity absorbs finite values. -/
def JNum.add : JNum → JNum → JNum
  | nan, _ => nan
  | _, nan => nan
  | inf, ninf => nan
  | ninf, inf => nan
  | inf, _ => inf
  | _, inf => inf
  | ninf, _ => ninf
  | _, ninf => ninf
  | fin a, fin b => fin (a + b)

/-- What the dataset.x slot of the element can hold: the attribute may be
absent, may hold a string parseFloat cannot read a number from, or may
hold String(n) for a JavaScript number n. -/
inductive DataStr where
  | missing : DataStr
  | junk : DataStr
  | num : JNum → DataStr
  deriving Repr, DecidableEq

/-- The read expression of the listeners,
`parseFloat(el.dataset.x || "0") || 0`: an absent attribute falls back to
the string "0"; parseFloat of an unreadable string is NaN and NaN is
falsy, so it collapses to 0; String(NaN) parses back to NaN and likewise
collapses to 0; a finite value reads back as itself (0 is falsy but the
fallback is again 0); String(Infinity) parses back to Infinity, which is
truthy and therefore survives the fallback. -/
def readCoord : DataStr → JNum
  | .missing => .fin 0
  | .junk => .fin 0
  | .num .nan => .fin 0
  | .num (.fin q) => .fin q
  | .num .inf => .inf
  | .num .ninf => .ninf

/-- One move event of the drag listener on the stored coordinate:
`nx = (parseFloat(el.dataset.x || "0") || 0) + (event.dx ?? 0)` followed
by `el.dataset.x = String(nx)`; a missing (undefined or null) delta is
replaced by 0 by the nullish coalescing, but a NaN or infinite delta is
not. -/
def dragMoveStored (stored : DataStr) (dx : Option JNum) : DataStr :=
  .num (JNum.add (readCoord stored) (dx.getD (.fin 0)))

/-- The stored coordinate after a sequence of move events. -/
def runMoves (stored : DataStr) (ds : List (Option JNum)) : DataStr :=
  ds.foldl dragMoveStored stored

/-- A JavaScript number is finite when it is neither NaN nor infinite. -/
def JNum.isFinite : JNum → Bool
  | fin _ => true
  | _ => false

/-- The stored slot does not hold an infinity (it may be missing, junk,
NaN or finite). -/
def DataStr.notInf : DataStr → Bool
  | .num .inf => false
  | .num .ninf => false
  | _ => true

/-- A sample 1200 by 800 image file, as in the spec example scenario. -/
def fA : SelFile := ⟨"a.png", some (1200, 800)⟩

/-- A sample file with unreadable dimensions. -/
def fB : SelFile := ⟨"b.png", none⟩

/-- Sample pending items used to instantiate the theorems. -/
def pA : PendingFile := ⟨"a.png", 0, 0, 0, 260, 173, none⟩

def pB : PendingFile := ⟨"b.png", 1, 16, 16, 260, 172, some "hello"⟩

def pC : PendingFile := ⟨"c.png", 2, 32, 32, 100, 90, none⟩

/-- A component state with two pending items. -/
def stPend2 : CState :=
  { pending := [pA, pB]
    docs := []
    revoked := []
    nextHandle := 2
    isSaving := false
    mountPending := [] }

/-- A component state with three pending items. -/
def stPend3 : CState :=
  { pending := [pA, pB, pC]
    docs := []
    revoked := []
    nextHandle := 3
    isSaving := false
    mountPending := [] }

/-- A collaborator outcome in which every upload and every write
succeeds. -/
def envAll : SaveEnv :=
  { uploadOk := fun _ => true
    urlOf := fun i => "url" ++ toString i
    writeOk := fun _ => true }

/-- A collaborator outcome in which the upload of the second item (loop
index 1) throws and everything else succeeds. -/
def envFail1 : SaveEnv :=
  { uploadOk := fun i => !(i == 1)
    urlOf := fun i => "url" ++ toString i
    writeOk := fun _ => true }

/- -------------------- helper lemmas -------------------- -/

theorem seedEntries_length (handle n : Nat) (fs : List SelFile) :
    (seedEntries handle n fs).length = fs.length := by
  induction fs generalizing handle n with
  | nil => rfl
  | cons f fs ih => simp [seedEntries, ih]

theorem seedEntries_get? (handle n : Nat) (fs : List SelFile) (i : Nat) :
    (seedEntries handle n fs).get? i =
      (fs.get? i).map (fun f => seedEntry (handle + i) (n + i) f) := by
  induction fs generalizing handle n i with
  | nil => simp [seedEntries]
  | cons f fs ih =>
    cases i with
    | zero => simp [seedEntries]
    | succ j =>
      simp only [seedEntries, List.get?_cons_succ, ih (handle + 1) (n + 1) j]
      have h1 : handle + 1 + j = handle + (j + 1) := by omega
      have h2 : n + 1 + j = n + (j + 1) := by omega
      rw [h1, h2]

theorem docsFrom_length (env : SaveEnv) (i : Nat) (l : List PendingFile) :
    (docsFrom env i l).length = l.length := by
  induction l generalizing i with
  | nil => rfl
  | cons p rest ih => simp [docsFrom, ih]

theorem docOf_mem_docsFrom (env : SaveEnv) (l : List PendingFile) (i0 j : Nat)
    (hj : j < l.length) :
    docOf env (i0 + j) (l.get ⟨j, hj⟩) ∈ docsFrom env i0 l := by
  induction l generalizing i0 j with
  | nil => cases hj
  | cons p rest ih =>
    cases j with
    | zero => simp [docsFrom]
    | succ j' =>
      have hmem := ih (i0 + 1) j' (by simpa using Nat.lt_of_succ_lt_succ hj)
      rw [show i0 + (j' + 1) = i0 + 1 + j' by omega]
      simp only [docsFrom, List.get_cons_succ, List.mem_cons]
      right
      exact hmem

theorem saveLoop_allOk (env : SaveEnv) (l : List PendingFile) (i : Nat)
    (hok : ∀ j, j < l.length → env.uploadOk (i + j) = true ∧ env.writeOk (i + j) = true) :
    saveLoop env i l =
      ⟨docsFrom env i l, List.range' i l.length, List.range' i l.length, true⟩ := by
  induction l generalizing i with
  | nil => rfl
  | cons p rest ih =>
    have h0 := hok 0 (by simp)
    rw [Nat.add_zero] at h0
    have hrest : ∀ j, j < rest.length →
        env.uploadOk (i + 1 + j) = true ∧ env.writeOk (i + 1 + j) = true := by
      intro j hj
      have hx := hok (j + 1) (by simpa using Nat.succ_lt_succ hj)
      rwa [show i + (j + 1) = i + 1 + j by omega] at hx
    simp [saveLoop, h0.1, h0.2, ih (i + 1) hrest, docsFrom, List.range']

theorem saveLoop_fail (env : SaveEnv) (l : List PendingFile) (i m : Nat)
    (hm : m < l.length)
    (hpre : ∀ j, j < m → env.uploadOk (i + j) = true ∧ env.writeOk (i + j) = true)
    (hfail : env.uploadOk (i + m) = false ∨
      (env.uploadOk (i + m) = true ∧ env.writeOk (i + m) = false)) :
    saveLoop env i l =
      ⟨docsFrom env i (l.take m), List.range' i (m + 1),
        List.range' i m ++ (if env.uploadOk (i + m) = true then [i + m] else []),
        false⟩ := by
  induction l generalizing i m with
  | nil => cases hm
  | cons p rest ih =>
    cases m with
    | zero =>
      rw [Nat.add_zero] at hfail
      rcases hfail with hf | ⟨hu, hw⟩
      · simp [saveLoop, hf, docsFrom, List.range']
      · simp [saveLoop, hu, hw, docsFrom, List.range']
    | succ m' =>
      have h0 := hpre 0 (by omega)
      rw [Nat.add_zero] at h0
      have hpre' : ∀ j, j < m' →
          env.uploadOk (i + 1 + j) = true ∧ env.writeOk (i + 1 + j) = true := by
        intro j hj
        have hx := hpre (j + 1) (by omega)
        rwa [show i + (j + 1) = i + 1 + j by omega] at hx
      have hfail' : env.uploadOk (i + 1 + m') = false ∨
          (env.uploadOk (i + 1 + m') = true ∧ env.writeOk (i + 1 + m') = false) := by
        rwa [show i + (m' + 1) = i + 1 + m' by omega] at hfail
      have hm' : m' < rest.length := Nat.lt_of_succ_lt_succ hm
      simp only [saveLoop, h0.1, h0.2, if_true, ih (i + 1) m' hm' hpre' hfail']
      rw [show i + 1 + m' = i + (m' + 1) by omega]
      simp [docsFrom, List.range', List.take]

theorem onSave_ok_eq (env : SaveEnv) (st : CState)
    (hne : st.pending.isEmpty = false)
    (hok : (saveLoop env 0 st.pending).ok = true) :
    onSave env st =
      { st with
        pending := []
        docs := st.docs ++ (saveLoop env 0 st.pending).docs
        revoked := st.revoked ++ st.pending.map (fun p => p.previewUrl)
        isSaving := false } := by
  simp [onSave, hne, hok]

theorem onSave_fail_eq (env : SaveEnv) (st : CState)
    (hne : st.pending.isEmpty = false)
    (hok : (saveLoop env 0 st.pending).ok = false) :
    onSave env st =
      { st with
        docs := st.docs ++ (saveLoop env 0 st.pending).docs
        isSaving := false } := by
  simp [onSave, hne, hok]

theorem baseH_1200_800 : baseH (some (1200, 800)) = 173 := by
  norm_num [baseH, ratioOf, round_eq]

theorem baseH_none : baseH none = 172 := by
  norm_num [baseH, ratioOf, round_eq]

theorem baseH_wide : baseH (some (2000, 100)) = 160 := by
  norm_num [baseH, ratioOf, round_eq]

theorem saveMidStates_isSaving (env : SaveEnv) (st : CState) :
    ∀ (i : Nat) (acc : List GalleryDoc) (l : List PendingFile) (s : CState),
      s ∈ saveMidStates env st i acc l → s.isSaving = true := by
  intro i acc l
  induction l generalizing i acc with
  | nil =>
    intro s hs
    simp [saveMidStates] at hs
  | cons p rest ih =>
    intro s hs
    rw [saveMidStates] at hs
    by_cases hc : (env.uploadOk i && env.writeOk i) = true
    · rw [if_pos hc] at hs
      rcases List.mem_cons.mp hs with hh | hh
      · rw [hh]
      · exact ih (i + 1) (acc ++ [docOf env i p]) s hh
    · rw [if_neg hc] at hs
      simp only [List.mem_singleton] at hs
      rw [hs]

theorem onSave_isSaving (env : SaveEnv) (st : CState) (hidle : st.isSaving = false) :
    (onSave env st).isSaving = false := by
  cases he : st.pending.isEmpty with
  | true =>
    simp [onSave, he, hidle]
  | false =>
    cases hok : (saveLoop env 0 st.pending).ok with
    | true => rw [onSave_ok_eq env st he hok]
    | false => rw [onSave_fail_eq env st he hok]

theorem buttonDisabled_iff (st : CState) :
    buttonDisabled st = true ↔ (st.pending = [] ∨ st.isSaving = true) := by
  unfold buttonDisabled canSaveB
  cases hs : st.isSaving <;> cases hp : st.pending <;> simp

theorem clickSave_saving (env : SaveEnv) (st : CState) :
    clickSave env { st with isSaving := true } = { st with isSaving := true } := by
  unfold clickSave canSaveB
  simp

theorem save_paren_ne (x : String) : "Save" ++ (" (" ++ x ++ ")") ≠ "Saving…" := by
  intro he
  have hlen := congrArg String.length he
  simp only [String.length_append] at hlen
  have h4 : "Save".length = 4 := by decide
  have h2 : " (".length = 2 := by decide
  have h1 : ")".length = 1 := by decide
  have h7 : "Saving…".length = 7 := by decide
  rw [h4, h2, h1, h7] at hlen
  have hx : x.length = 0 := by omega
  have hxe : x = "" := by
    cases x with
    | mk d =>
      cases d with
      | nil => rfl
      | cons c cs => simp [String.length] at hx
  rw [hxe] at he
  exact absurd he (by decide)

theorem buttonLabel_saving (s : CState) (h : s.isSaving = true) :
    buttonLabel s = "Saving…" := by
  unfold buttonLabel
  rw [h]
  simp

theorem buttonLabel_idle_ne (st : CState) (h : st.isSaving = false) :
    buttonLabel st ≠ "Saving…" := by
  unfold buttonLabel
  rw [h]
  simp only [Bool.false_eq_true, if_false]
  by_cases hp : 0 < st.pending.length
  · rw [if_pos hp]
    exact save_paren_ne _
  · rw [if_neg hp]
    decide

theorem clampI_bounds (lo hi v : ℤ) (h : lo ≤ hi) :
    lo ≤ clampI lo hi v ∧ clampI lo hi v ≤ hi := by
  unfold clampI
  omega

theorem clampI_cases (lo hi v : ℤ) :
    clampI lo hi v = lo ∨ clampI lo hi v = hi ∨ clampI lo hi v = v := by
  unfold clampI
  omega

theorem clampI_eq_self (lo hi v : ℤ) (h1 : lo ≤ v) (h2 : v ≤ hi) :
    clampI lo hi v = v := by
  unfold clampI
  omega

theorem snap8_emod (v : ℤ) : snap8 v % 8 = 0 := by
  unfold snap8
  exact Int.mul_emod_right 8 _

theorem pageDragRun_bounds (snap : Bool) (pw ph w h : ℤ) (p0 : ℤ × ℤ)
    (ds : List (ℤ × ℤ))
    (h0 : 0 ≤ p0.1 ∧ p0.1 ≤ pw - w ∧ 0 ≤ p0.2 ∧ p0.2 ≤ ph - h) :
    0 ≤ (pageDragRun snap pw ph w h p0 ds).1 ∧
    (pageDragRun snap pw ph w h p0 ds).1 ≤ pw - w ∧
    0 ≤ (pageDragRun snap pw ph w h p0 ds).2 ∧
    (pageDragRun snap pw ph w h p0 ds).2 ≤ ph - h := by
  induction ds generalizing p0 with
  | nil => exact h0
  | cons d rest ih =>
    have hstep : 0 ≤ (pageDragMove snap pw ph w h p0 d).1 ∧
        (pageDragMove snap pw ph w h p0 d).1 ≤ pw - w ∧
        0 ≤ (pageDragMove snap pw ph w h p0 d).2 ∧
        (pageDragMove snap pw ph w h p0 d).2 ≤ ph - h := by
      cases snap with
      | true =>
        simp only [pageDragMove, clampI, if_true]
        omega
      | false =>
        simp only [pageDragMove, clampI, Bool.false_eq_true, if_false]
        omega
    exact ih (pageDragMove snap pw ph w h p0 d) hstep

theorem pageDragRun_concat (snap : Bool) (pw ph w h : ℤ) (p0 : ℤ × ℤ)
    (ds : List (ℤ × ℤ)) (d : ℤ × ℤ) :
    pageDragRun snap pw ph w h p0 (ds ++ [d]) =
      pageDragMove snap pw ph w h (pageDragRun snap pw ph w h p0 ds) d := by
  unfold pageDragRun
  rw [List.foldl_append]
  rfl

theorem readCoord_fin_of_notInf (s : DataStr) (h : s.notInf = true) :
    ∃ q : ℤ, readCoord s = .fin q := by
  cases s with
  | missing => exact ⟨0, rfl⟩
  | junk => exact ⟨0, rfl⟩
  | num v =>
    cases v with
    | fin q => exact ⟨q, rfl⟩
    | nan => exact ⟨0, rfl⟩
    | inf => cases h
    | ninf => cases h

theorem readCoord_isFinite_of_notInf (s : DataStr) (h : s.notInf = true) :
    (readCoord s).isFinite = true := by
  obtain ⟨q, hq⟩ := readCoord_fin_of_notInf s h
  rw [hq]
  rfl

theorem dragMoveStored_notInf (s : DataStr) (d : Option JNum)
    (h : s.notInf = true) (hd : d ≠ some .inf ∧ d ≠ some .ninf) :
    (dragMoveStored s d).notInf = true := by
  obtain ⟨q, hq⟩ := readCoord_fin_of_notInf s h
  unfold dragMoveStored
  rw [hq]
  cases d with
  | none => rfl
  | some v =>
    cases v with
    | fin a => rfl
    | nan => rfl
    | inf => exact absurd rfl hd.1
    | ninf => exact absurd rfl hd.2

theorem runMoves_notInf (ds : List (Option JNum)) (s0 : DataStr)
    (h0 : s0.notInf = true)
    (hds : ∀ d ∈ ds, d ≠ some .inf ∧ d ≠ some .ninf) :
    (runMoves s0 ds).notInf = true := by
  induction ds generalizing s0 with
  | nil => exact h0
  | cons d rest ih =>
    have hstep := dragMoveStored_notInf s0 d h0 (hds d (List.mem_cons_self d rest))
    exact ih (dragMoveStored s0 d) hstep (fun x hx => hds x (List.mem_cons_of_mem d hx))

/- -------------------- claim theorems -------------------- -/

/-- Claim C6: a selection event delivering files onto a pending list of
length n leaves the pending list with length n plus the number of files
(duplicates counted separately, since every file contributes one entry),
keeps the existing entries unchanged as a prefix, seeds every new entry
by the heuristic, and selecting a 1200 by 800 image as the first item
yields the initial layout w = 260, h = round(260 * 800 / 1200) = 173,
x = 0, y = 0. -/
theorem C6_select_appends (handle : Nat) (pending : List PendingFile)
    (files : List SelFile) (i : Nat) (hi : i < files.length) :
    (onSelect handle pending files).length = pending.length + files.length ∧
    (onSelect handle pending files).take pending.length = pending ∧
    (onSelect handle pending files).get? (pending.length + i) =
      some (seedEntry (handle + i) (pending.length + i) (files.get ⟨i, hi⟩)) ∧
    onSelect 0 [] [fA] =
      [{ name := "a.png", previewUrl := 0, x := 0, y := 0, w := 260, h := 173,
         caption := none }] := by
  have hne : files.isEmpty = false := by
    cases files with
    | nil => simp at hi
    | cons f fs => rfl
  refine ⟨?_, ?_, ?_, ?_⟩
  · simp [onSelect, hne, seedEntries_length]
  · simp [onSelect, hne, List.take_left]
  · rw [onSelect, hne]
    simp only [Bool.false_eq_true, if_false]
    rw [List.get?_append_right (by omega)]
    have hsub : pending.length + i - pending.length = i := by omega
    rw [hsub, seedEntries_get?]
    have hgi : files.get? i = some (files.get ⟨i, hi⟩) := List.get?_eq_get hi
    rw [hgi]
    rfl
  · have h173 := baseH_1200_800
    simp [onSelect, fA, seedEntries, seedEntry, List.isEmpty] at h173 ⊢
    exact h173

/-- Witness for C6 at a two-file selection appended to a one-item pending
list. -/
theorem C6_select_appends_witness :
    (onSelect 2 [pA] [fA, fB]).length = [pA].length + [fA, fB].length ∧
    (onSelect 2 [pA] [fA, fB]).take [pA].length = [pA] ∧
    (onSelect 2 [pA] [fA, fB]).get? ([pA].length + 1) =
      some (seedEntry (2 + 1) ([pA].length + 1) ([fA, fB].get ⟨1, by decide⟩)) ∧
    onSelect 0 [] [fA] =
      [{ name := "a.png", previewUrl := 0, x := 0, y := 0, w := 260, h := 173,
         caption := none }] :=
  C6_select_appends 2 [pA] [fA, fB] 1 (by decide)

/-- Claim C10: every seeded initial layout has width exactly 260 and
height Math.max(160, Math.round(260 * max(0.3, imageHeight/imageWidth))),
the ratio falling back to 0.66 when the dimensions are unreadable; the
height is never below 160 and the ratio is clamped below at 0.3, so for a
sufficiently wide image (2000 by 100) the initial height is the 160 floor
instead of the 13 the true aspect ratio would give. -/
theorem C10_seed_heuristic (handle n : Nat) (f : SelFile) (dw dh : Nat)
    (hdw : 0 < dw) :
    (seedEntry handle n f).w = 260 ∧
    (seedEntry handle n f).h = max 160 (round ((260 : ℚ) * ratioOf f.dims)) ∧
    160 ≤ (seedEntry handle n f).h ∧
    ratioOf none = 33 / 50 ∧
    ratioOf (some (dw, dh)) = max (3 / 10) ((dh : ℚ) / (dw : ℚ)) ∧
    baseH (some (2000, 100)) = 160 ∧
    round ((260 : ℚ) * ((100 : ℚ) / (2000 : ℚ))) = 13 := by
  refine ⟨rfl, rfl, le_max_left _ _, rfl, ?_, baseH_wide, by norm_num [round_eq]⟩
  simp [ratioOf, hdw]

/-- Witness for C10 at a 1200 by 800 readable image. -/
theorem C10_seed_heuristic_witness :
    (seedEntry 0 0 fA).w = 260 ∧
    (seedEntry 0 0 fA).h = max 160 (round ((260 : ℚ) * ratioOf fA.dims)) ∧
    160 ≤ (seedEntry 0 0 fA).h ∧
    ratioOf none = 33 / 50 ∧
    ratioOf (some (1200, 800)) = max (3 / 10) ((800 : ℚ) / (1200 : ℚ)) ∧
    baseH (some (2000, 100)) = 160 ∧
    round ((260 : ℚ) * ((100 : ℚ) / (2000 : ℚ))) = 13 :=
  C10_seed_heuristic 0 0 fA 1200 800 (by decide)

/-- Claim C1: saving a non-empty pending list of N items with every
upload and every write succeeding processes the items in list order
(the attempted uploads are exactly the loop indices 0..N-1 in order),
appends exactly N new documents, each combining the resolved URL, the
file name, the current layout and the optional caption of its item,
empties the pending list, and revokes each preview handle exactly once
(the handles are pairwise distinct, being freshly allocated). -/
theorem C1_save_success (st : CState) (env : SaveEnv) (p : PendingFile)
    (hne : st.pending ≠ [])
    (hok : ∀ i, i < st.pending.length → env.uploadOk i = true ∧ env.writeOk i = true)
    (hp : p ∈ st.pending)
    (hnd : (st.pending.map (fun q => q.previewUrl)).Nodup) :
    (onSave env st).docs = st.docs ++ docsFrom env 0 st.pending ∧
    (onSave env st).docs.length = st.docs.length + st.pending.length ∧
    (onSave env st).pending = [] ∧
    (saveLoop env 0 st.pending).uploads = List.range st.pending.length ∧
    (onSave env st).revoked = st.revoked ++ st.pending.map (fun q => q.previewUrl) ∧
    (onSave env st).revoked.count p.previewUrl = st.revoked.count p.previewUrl + 1 := by
  have hL := saveLoop_allOk env st.pending 0 (by simpa using hok)
  have hEmpty : st.pending.isEmpty = false := by
    cases hl : st.pending with
    | nil => exact absurd hl hne
    | cons a l => rfl
  have hone : (st.pending.map (fun q => q.previewUrl)).count p.previewUrl = 1 :=
    List.count_eq_one_of_mem hnd (List.mem_map.mpr ⟨p, hp, rfl⟩)
  have hsave := onSave_ok_eq env st hEmpty (by rw [hL])
  rw [hsave, hL]
  refine ⟨rfl, by simp [docsFrom_length], rfl, ?_, rfl, by simp [List.count_append, hone]⟩
  exact (List.range_eq_range' st.pending.length).symm

/-- Witness for C1 at the two-item state with every operation
succeeding. -/
theorem C1_save_success_witness :
    (onSave envAll stPend2).docs = stPend2.docs ++ docsFrom envAll 0 stPend2.pending ∧
    (onSave envAll stPend2).docs.length = stPend2.docs.length + stPend2.pending.length ∧
    (onSave envAll stPend2).pending = [] ∧
    (saveLoop envAll 0 stPend2.pending).uploads = List.range stPend2.pending.length ∧
    (onSave envAll stPend2).revoked =
      stPend2.revoked ++ stPend2.pending.map (fun q => q.previewUrl) ∧
    (onSave envAll stPend2).revoked.count pA.previewUrl =
      stPend2.revoked.count pA.previewUrl + 1 :=
  C1_save_success stPend2 envAll pA (by decide) (by decide) (by decide) (by decide)

/-- Claim C2: if the upload or the write of the item at loop index k
throws (everything before k succeeding), the loop attempts no upload and
no write for any item after k, the documents already written for the
items before k stay persisted (the store only grows, no compensating
delete), the pending list is untouched, and the save ends in the failed
state with isSaving reset. -/
theorem C2_save_failure_aborts (st : CState) (env : SaveEnv) (k : Nat)
    (hk : k < st.pending.length)
    (hpre : ∀ j, j < k → env.uploadOk j = true ∧ env.writeOk j = true)
    (hfail : env.uploadOk k = false ∨ (env.uploadOk k = true ∧ env.writeOk k = false)) :
    (saveLoop env 0 st.pending).ok = false ∧
    (∀ j ∈ (saveLoop env 0 st.pending).uploads, j ≤ k) ∧
    (∀ j ∈ (saveLoop env 0 st.pending).writes, j ≤ k) ∧
    (onSave env st).docs = st.docs ++ docsFrom env 0 (st.pending.take k) ∧
    (onSave env st).pending = st.pending ∧
    (onSave env st).isSaving = false := by
  have hL := saveLoop_fail env st.pending 0 k hk (by simpa using hpre) (by simpa using hfail)
  have hEmpty : st.pending.isEmpty = false := by
    cases hl : st.pending with
    | nil => rw [hl] at hk; cases hk
    | cons a l => rfl
  refine ⟨by simp [hL], ?_, ?_, ?_, ?_, ?_⟩
  · intro j hj
    rw [hL] at hj
    simp only [List.mem_range'] at hj
    omega
  · intro j hj
    rw [hL] at hj
    simp only [Nat.zero_add, List.mem_append, List.mem_range'] at hj
    rcases hj with hj | hj
    · omega
    · cases hu : env.uploadOk k with
      | false =>
        rw [hu] at hj
        simp at hj
      | true =>
        rw [hu] at hj
        simp at hj
        omega
  · rw [onSave_fail_eq env st hEmpty (by rw [hL]), hL]
  · rw [onSave_fail_eq env st hEmpty (by rw [hL])]
  · rw [onSave_fail_eq env st hEmpty (by rw [hL])]

/-- Witness for C2 at the three-item state where the upload of the second
item (loop index 1) throws. -/
theorem C2_save_failure_aborts_witness :
    (saveLoop envFail1 0 stPend3.pending).ok = false ∧
    (∀ j ∈ (saveLoop envFail1 0 stPend3.pending).uploads, j ≤ 1) ∧
    (∀ j ∈ (saveLoop envFail1 0 stPend3.pending).writes, j ≤ 1) ∧
    (onSave envFail1 stPend3).docs =
      stPend3.docs ++ docsFrom envFail1 0 (stPend3.pending.take 1) ∧
    (onSave envFail1 stPend3).pending = stPend3.pending ∧
    (onSave envFail1 stPend3).isSaving = false :=
  C2_save_failure_aborts stPend3 envFail1 1 (by decide) (by decide) (by decide)

/-- Claim C3: when the save fails at loop index k, the pending list is
left exactly unchanged (layouts intact) and no preview handle is
revoked; hence a subsequent save in which every operation succeeds
writes a document for every pending item again, so each of the items
before k ends up with two documents in the store: the one written before
the failure and a fresh one. -/
theorem C3_failure_keeps_pending (st : CState) (env env2 : SaveEnv) (k i : Nat)
    (hk : k < st.pending.length)
    (hpre : ∀ j, j < k → env.uploadOk j = true ∧ env.writeOk j = true)
    (hfail : env.uploadOk k = false ∨ (env.uploadOk k = true ∧ env.writeOk k = false))
    (hok2 : ∀ j, j < st.pending.length → env2.uploadOk j = true ∧ env2.writeOk j = true)
    (hi : i < k) :
    (onSave env st).pending = st.pending ∧
    (onSave env st).revoked = st.revoked ∧
    (onSave env2 (onSave env st)).docs =
      st.docs ++ docsFrom env 0 (st.pending.take k) ++ docsFrom env2 0 st.pending ∧
    docOf env i (st.pending.get ⟨i, hi.trans hk⟩) ∈ (onSave env2 (onSave env st)).docs ∧
    docOf env2 i (st.pending.get ⟨i, hi.trans hk⟩) ∈ (onSave env2 (onSave env st)).docs := by
  have hL := saveLoop_fail env st.pending 0 k hk (by simpa using hpre) (by simpa using hfail)
  have hEmpty : st.pending.isEmpty = false := by
    cases hl : st.pending with
    | nil => rw [hl] at hk; cases hk
    | cons a l => rfl
  have h1 := onSave_fail_eq env st hEmpty (by rw [hL])
  have hpend : (onSave env st).pending = st.pending := by rw [h1]
  have hrev : (onSave env st).revoked = st.revoked := by rw [h1]
  have hdocs1 : (onSave env st).docs = st.docs ++ docsFrom env 0 (st.pending.take k) := by
    rw [h1, hL]
  have hL2 := saveLoop_allOk env2 st.pending 0 (by simpa using hok2)
  have hEmpty2 : (onSave env st).pending.isEmpty = false := by rw [hpend]; exact hEmpty
  have hL2b : saveLoop env2 0 (onSave env st).pending =
      ⟨docsFrom env2 0 st.pending, List.range' 0 st.pending.length,
        List.range' 0 st.pending.length, true⟩ := by
    rw [hpend, hL2]
  have h2 := onSave_ok_eq env2 (onSave env st) hEmpty2 (by rw [hL2b])
  have hdocs2 : (onSave env2 (onSave env st)).docs =
      st.docs ++ docsFrom env 0 (st.pending.take k) ++ docsFrom env2 0 st.pending := by
    rw [h2, hL2b]
    simp only []
    rw [hdocs1]
  refine ⟨hpend, hrev, hdocs2, ?_, ?_⟩
  · rw [hdocs2]
    have hik : i < (st.pending.take k).length := by
      rw [List.length_take]
      omega
    have hmem := docOf_mem_docsFrom env (st.pending.take k) 0 i hik
    rw [Nat.zero_add] at hmem
    have hget : (st.pending.take k).get ⟨i, hik⟩ = st.pending.get ⟨i, hi.trans hk⟩ := by
      simp [List.get_take]
    rw [hget] at hmem
    simp only [List.mem_append]
    left
    right
    exact hmem
  · rw [hdocs2]
    have hmem := docOf_mem_docsFrom env2 st.pending 0 i (hi.trans hk)
    rw [Nat.zero_add] at hmem
    simp only [List.mem_append]
    right
    exact hmem

/-- Witness for C3: the three-item state fails at loop index 1 and is
then saved again with every operation succeeding; the first item gets a
second document. -/
theorem C3_failure_keeps_pending_witness :
    (onSave envFail1 stPend3).pending = stPend3.pending ∧
    (onSave envFail1 stPend3).revoked = stPend3.revoked ∧
    (onSave envAll (onSave envFail1 stPend3)).docs =
      stPend3.docs ++ docsFrom envFail1 0 (stPend3.pending.take 1) ++
        docsFrom envAll 0 stPend3.pending ∧
    docOf envFail1 0 (stPend3.pending.get ⟨0, by decide⟩) ∈
      (onSave envAll (onSave envFail1 stPend3)).docs ∧
    docOf envAll 0 (stPend3.pending.get ⟨0, by decide⟩) ∈
      (onSave envAll (onSave envFail1 stPend3)).docs :=
  C3_failure_keeps_pending stPend3 envFail1 envAll 1 0 (by decide) (by decide)
    (by decide) (by decide) (by decide)

/-- Claim C7 (the code contradicts it): the unmount cleanup is supposed
to revoke the preview handle of every item still pending at teardown
time, but the effect has an empty dependency list, so its cleanup
closure holds the pending array of the first render — the empty array.
After selecting one file the pending list holds one item whose preview
handle (0) was acquired, yet teardown revokes nothing: the handle
leaks. -/
theorem C7_teardown_leak :
    (teardown (run [Ev.select [fA]])).pending.map (fun p => p.previewUrl) = [0] ∧
    (teardown (run [Ev.select [fA]])).revoked = [] := by
  exact ⟨rfl, rfl⟩

/-- Claim C8: the save pipeline is never invoked concurrently with
itself: at every suspension point inside a save the isSaving flag is set
and the button shows the in-progress label, the flag is back to false
once onSave returns (completion and failure alike, via the finally
block), the save trigger is disabled exactly when the pending list is
empty or a save is outstanding, and a click arriving while isSaving is
set leaves the state unchanged. -/
theorem C8_single_flight (env : SaveEnv) (st s : CState)
    (hs : s ∈ saveMidStates env st 0 [] st.pending)
    (hidle : st.isSaving = false) :
    s.isSaving = true ∧
    buttonLabel s = "Saving…" ∧
    (onSave env st).isSaving = false ∧
    buttonLabel (onSave env st) ≠ "Saving…" ∧
    (buttonDisabled st = true ↔ (st.pending = [] ∨ st.isSaving = true)) ∧
    clickSave env { st with isSaving := true } = { st with isSaving := true } := by
  have h1 := saveMidStates_isSaving env st 0 [] st.pending s hs
  have h3 := onSave_isSaving env st hidle
  exact ⟨h1, buttonLabel_saving s h1, h3, buttonLabel_idle_ne _ h3,
    buttonDisabled_iff st, clickSave_saving env st⟩

/-- Witness for C8 at the two-item state, observing the first suspension
point of a fully succeeding save. -/
theorem C8_single_flight_witness :
    ({ stPend2 with isSaving := true } : CState).isSaving = true ∧
    buttonLabel { stPend2 with isSaving := true } = "Saving…" ∧
    (onSave envAll stPend2).isSaving = false ∧
    buttonLabel (onSave envAll stPend2) ≠ "Saving…" ∧
    (buttonDisabled stPend2 = true ↔ (stPend2.pending = [] ∨ stPend2.isSaving = true)) ∧
    clickSave envAll { stPend2 with isSaving := true } = { stPend2 with isSaving := true } :=
  C8_single_flight envAll stPend2 { stPend2 with isSaving := true } (by decide) (by decide)

/-- Counterexample to claim C4 as stated: the claim covers the draggable
of the standalone ResizeableDraggableItem component, but that draggable
attaches no modifiers, so a drag gesture of (-50, 0) on a 100 by 100
item at the origin of a 400 by 400 parent finalizes at x = -50, outside
the parent bounds. -/
theorem C4_counterexample :
    compDragEnd 100 100 (0, 0) [(-50, 0)] = ⟨-50, 0, 100, 100⟩ ∧
    ¬ inBounds 400 400 (compDragEnd 100 100 (0, 0) [(-50, 0)]) := by
  constructor
  · rfl
  · decide

/-- Claim C4 amended: in the ResizableDraggableItem of page.tsx the
restrictEdges and restrictSize modifiers are attached to drag and resize
alike, independently of the snap setting, so (for a parent of at least
80 by 80) a resize gesture finalizes with w, h at least 80 and within
the parent, and a drag gesture starting within the parent finalizes
within the parent with the size unchanged (hence at least 80 by 80
whenever the item already was); in the standalone component the
modifiers are attached only to resize, so a drag there can escape the
parent (see the counterexample). -/
theorem C4_amended (snap : Bool) (pw ph w h : ℤ) (p0 : ℤ × ℤ) (ds : List (ℤ × ℤ))
    (e : Edges) (hpw : 80 ≤ pw) (hph : 80 ≤ ph) (hw80 : 80 ≤ w) (hh80 : 80 ≤ h)
    (h0x : 0 ≤ p0.1) (h0y : 0 ≤ p0.2) (h0xw : p0.1 + w ≤ pw) (h0yh : p0.2 + h ≤ ph) :
    (pageDragEnd snap pw ph w h p0 ds).w = w ∧
    (pageDragEnd snap pw ph w h p0 ds).h = h ∧
    80 ≤ (pageDragEnd snap pw ph w h p0 ds).w ∧
    80 ≤ (pageDragEnd snap pw ph w h p0 ds).h ∧
    inBounds pw ph (pageDragEnd snap pw ph w h p0 ds) ∧
    80 ≤ (pageResizeEnd snap pw ph e).w ∧
    80 ≤ (pageResizeEnd snap pw ph e).h ∧
    inBounds pw ph (pageResizeEnd snap pw ph e) := by
  have hrun := pageDragRun_bounds snap pw ph w h p0 ds
    (by refine ⟨?_, ?_, ?_, ?_⟩ <;> omega)
  have hdragIB : inBounds pw ph (pageDragEnd snap pw ph w h p0 ds) := by
    unfold inBounds pageDragEnd
    dsimp only
    omega
  have hresize : 80 ≤ (pageResizeEnd snap pw ph e).w ∧
      80 ≤ (pageResizeEnd snap pw ph e).h ∧
      inBounds pw ph (pageResizeEnd snap pw ph e) := by
    cases snap with
    | true =>
      simp only [pageResizeEnd, resolveResize, inBounds, clampI, if_true]
      omega
    | false =>
      simp only [pageResizeEnd, resolveResize, inBounds, clampI, Bool.false_eq_true,
        if_false]
      omega
  exact ⟨rfl, rfl, hw80, hh80, hdragIB, hresize.1, hresize.2.1, hresize.2.2⟩

/-- Witness for the amended C4: a snapped drag of (50, 30) and a resize
to candidate edges (40, 40, 200, 200) on a 100 by 100 item in a 400 by
400 parent. -/
theorem C4_amended_witness :
    (pageDragEnd true 400 400 100 100 (10, 20) [(50, 30)]).w = 100 ∧
    (pageDragEnd true 400 400 100 100 (10, 20) [(50, 30)]).h = 100 ∧
    80 ≤ (pageDragEnd true 400 400 100 100 (10, 20) [(50, 30)]).w ∧
    80 ≤ (pageDragEnd true 400 400 100 100 (10, 20) [(50, 30)]).h ∧
    inBounds 400 400 (pageDragEnd true 400 400 100 100 (10, 20) [(50, 30)]) ∧
    80 ≤ (pageResizeEnd true 400 400 ⟨40, 40, 200, 200⟩).w ∧
    80 ≤ (pageResizeEnd true 400 400 ⟨40, 40, 200, 200⟩).h ∧
    inBounds 400 400 (pageResizeEnd true 400 400 ⟨40, 40, 200, 200⟩) :=
  C4_amended true 400 400 100 100 (10, 20) [(50, 30)] ⟨40, 40, 200, 200⟩
    (by decide) (by decide) (by decide) (by decide) (by decide) (by decide)
    (by decide) (by decide)

/-- Counterexample to claim C5 as stated: with snap enabled, dragging
the seeded 260 by 173 first item by (50, 30) in a 1000 by 1000 parent
finalizes at (48, 32, 260, 173) — the position snaps to multiples of 8
(matching the spec example) but the width 260 is not a multiple of 8,
because a drag never touches the size. -/
theorem C5_counterexample :
    pageDragEnd true 1000 1000 260 173 (0, 0) [(50, 30)] = ⟨48, 32, 260, 173⟩ ∧
    ¬ (pageDragEnd true 1000 1000 260 173 (0, 0) [(50, 30)]).w % 8 = 0 := by
  constructor
  · decide
  · decide

/-- Claim C5 amended: with snapping enabled at step 8, a drag gesture
(with at least one move) finalizes with x and y multiples of 8 except
when clamped at the far parent edge, leaving w and h unchanged (so they
need not be multiples of 8), and a resize gesture whose snapped edges
already satisfy the parent and minimum-size restrictions finalizes with
x, y, w and h all multiples of 8. -/
theorem C5_amended (pw ph w h : ℤ) (p0 : ℤ × ℤ) (ds : List (ℤ × ℤ)) (e : Edges)
    (hds : ds ≠ [])
    (hl0 : 0 ≤ snap8 e.l) (hl1 : snap8 e.l ≤ pw - 80)
    (ht0 : 0 ≤ snap8 e.t) (ht1 : snap8 e.t ≤ ph - 80)
    (hr0 : snap8 e.l + 80 ≤ snap8 e.r) (hr1 : snap8 e.r ≤ pw)
    (hb0 : snap8 e.t + 80 ≤ snap8 e.b) (hb1 : snap8 e.b ≤ ph) :
    ((pageDragEnd true pw ph w h p0 ds).x % 8 = 0 ∨
      (pageDragEnd true pw ph w h p0 ds).x = pw - w) ∧
    ((pageDragEnd true pw ph w h p0 ds).y % 8 = 0 ∨
      (pageDragEnd true pw ph w h p0 ds).y = ph - h) ∧
    (pageDragEnd true pw ph w h p0 ds).w = w ∧
    (pageDragEnd true pw ph w h p0 ds).h = h ∧
    (pageResizeEnd true pw ph e).x % 8 = 0 ∧
    (pageResizeEnd true pw ph e).y % 8 = 0 ∧
    (pageResizeEnd true pw ph e).w % 8 = 0 ∧
    (pageResizeEnd true pw ph e).h % 8 = 0 := by
  obtain ⟨ds', d, rfl⟩ : ∃ ds' d, ds = ds' ++ [d] := by
    rcases List.eq_nil_or_concat ds with hnil | ⟨ds', d, hcat⟩
    · exact absurd hnil hds
    · exact ⟨ds', d, by rw [hcat, List.concat_eq_append]⟩
  have hXeq : (pageDragEnd true pw ph w h p0 (ds' ++ [d])).x =
      clampI 0 (pw - w) (snap8 ((pageDragRun true pw ph w h p0 ds').1 + d.1)) := by
    unfold pageDragEnd
    rw [pageDragRun_concat]
    rfl
  have hYeq : (pageDragEnd true pw ph w h p0 (ds' ++ [d])).y =
      clampI 0 (ph - h) (snap8 ((pageDragRun true pw ph w h p0 ds').2 + d.2)) := by
    unfold pageDragEnd
    rw [pageDragRun_concat]
    rfl
  have hres : pageResizeEnd true pw ph e =
      ⟨snap8 e.l, snap8 e.t, snap8 e.r - snap8 e.l, snap8 e.b - snap8 e.t⟩ := by
    simp only [pageResizeEnd, resolveResize, if_true]
    rw [clampI_eq_self 0 (pw - 80) (snap8 e.l) hl0 hl1,
        clampI_eq_self 0 (ph - 80) (snap8 e.t) ht0 ht1,
        clampI_eq_self (snap8 e.l + 80) pw (snap8 e.r) hr0 hr1,
        clampI_eq_self (snap8 e.t + 80) ph (snap8 e.b) hb0 hb1]
    simp only [Rect.mk.injEq]
    exact ⟨trivial, trivial, by omega, by omega⟩
  refine ⟨?_, ?_, rfl, rfl, ?_, ?_, ?_, ?_⟩
  · rw [hXeq]
    have hc := clampI_cases 0 (pw - w) (snap8 ((pageDragRun true pw ph w h p0 ds').1 + d.1))
    have hm := snap8_emod ((pageDragRun true pw ph w h p0 ds').1 + d.1)
    omega
  · rw [hYeq]
    have hc := clampI_cases 0 (ph - h) (snap8 ((pageDragRun true pw ph w h p0 ds').2 + d.2))
    have hm := snap8_emod ((pageDragRun true pw ph w h p0 ds').2 + d.2)
    omega
  · rw [hres]
    exact snap8_emod e.l
  · rw [hres]
    exact snap8_emod e.t
  · rw [hres]
    have h1 := snap8_emod e.r
    have h2 := snap8_emod e.l
    dsimp only
    omega
  · rw [hres]
    have h1 := snap8_emod e.b
    have h2 := snap8_emod e.t
    dsimp only
    omega

/-- Witness for the amended C5: a snapped drag of (50, 30) and a resize
to candidate edges (43, 21, 130, 210) in a 1000 by 1000 parent. -/
theorem C5_amended_witness :
    ((pageDragEnd true 1000 1000 96 96 (0, 0) [(50, 30)]).x % 8 = 0 ∨
      (pageDragEnd true 1000 1000 96 96 (0, 0) [(50, 30)]).x = 1000 - 96) ∧
    ((pageDragEnd true 1000 1000 96 96 (0, 0) [(50, 30)]).y % 8 = 0 ∨
      (pageDragEnd true 1000 1000 96 96 (0, 0) [(50, 30)]).y = 1000 - 96) ∧
    (pageDragEnd true 1000 1000 96 96 (0, 0) [(50, 30)]).w = 96 ∧
    (pageDragEnd true 1000 1000 96 96 (0, 0) [(50, 30)]).h = 96 ∧
    (pageResizeEnd true 1000 1000 ⟨43, 21, 130, 210⟩).x % 8 = 0 ∧
    (pageResizeEnd true 1000 1000 ⟨43, 21, 130, 210⟩).y % 8 = 0 ∧
    (pageResizeEnd true 1000 1000 ⟨43, 21, 130, 210⟩).w % 8 = 0 ∧
    (pageResizeEnd true 1000 1000 ⟨43, 21, 130, 210⟩).h % 8 = 0 :=
  C5_amended 1000 1000 96 96 (0, 0) [(50, 30)] ⟨43, 21, 130, 210⟩
    (by decide) (by decide) (by decide) (by decide) (by decide) (by decide)
    (by decide) (by decide) (by decide)

/-- Counterexample to claim C9 as stated: an infinite delta is a
non-finite input that the listeners do not coerce to zero — a single
move with dx = Infinity on a well-formed stored coordinate records
Infinity, and the finalized coordinate read back at gesture end is
Infinity, not a finite number. -/
theorem C9_counterexample :
    runMoves (.num (.fin 0)) [some .inf] = .num .inf ∧
    readCoord (runMoves (.num (.fin 0)) [some .inf]) = .inf ∧
    (readCoord (runMoves (.num (.fin 0)) [some .inf])).isFinite = false := by
  exact ⟨rfl, rfl, rfl⟩

/-- Claim C9 amended: a missing (undefined or null) delta is coerced to
zero by the nullish coalescing, and a missing, unparseable or NaN stored
coordinate is read back as zero, so as long as no move event carries an
infinite delta and the stored slot does not already hold an infinity,
the recorded coordinate never becomes infinite and the finalized
coordinate read at gesture end is finite; an infinite delta, however,
propagates (see the counterexample). -/
theorem C9_amended (s0 : DataStr) (ds : List (Option JNum))
    (h0 : s0.notInf = true)
    (hds : ∀ d ∈ ds, d ≠ some .inf ∧ d ≠ some .ninf) :
    readCoord .missing = .fin 0 ∧
    readCoord .junk = .fin 0 ∧
    readCoord (.num .nan) = .fin 0 ∧
    (runMoves s0 ds).notInf = true ∧
    (readCoord (runMoves s0 ds)).isFinite = true := by
  have hrun := runMoves_notInf ds s0 h0 hds
  exact ⟨rfl, rfl, rfl, hrun, readCoord_isFinite_of_notInf _ hrun⟩

/-- Witness for the amended C9: a gesture starting from an unparseable
stored slot, with a finite move, a missing-delta move and a NaN move. -/
theorem C9_amended_witness :
    readCoord .missing = .fin 0 ∧
    readCoord .junk = .fin 0 ∧
    readCoord (.num .nan) = .fin 0 ∧
    (runMoves .junk [some (.fin 3), none, some .nan]).notInf = true ∧
    (readCoord (runMoves .junk [some (.fin 3), none, some .nan])).isFinite = true :=
  C9_amended .junk [some (.fin 3), none, some .nan] (by decide) (by decide)

end Gallery
